import Mathlib

/-!
# Verification of `skx/aws-utils`: whitelist-self reconciliation and the role harness

Shallow embedding of the two core pieces of the repository:

* the allow-list reconciler of the `whitelist-self` sub-command
  (`whitelistSelfCommand.processSG`, `myIPDel`, `myIPAdd`,
  `handleSecurityGroup`, `processRules`, `Execute` in `cmd_stacks.go`), and
* the multi-account role-iteration harness (`utils.HandleRoles` in
  `utils/utils.go`).

AWS calls are modelled by explicit data: the reconciler receives the
result of `DescribeSecurityGroups` as a value and the outcomes of the
`Revoke`/`Authorize` calls as `Option String` error injections, and it
returns, next to its Go return value, the ordered trace of the mutating
EC2 calls it issued.  The harness receives the role-file's lines as a
list and the per-account callback as a function from the extracted
account to an optional error.
-/

set_option autoImplicit false

namespace AwsUtils

/-- One entry of `IpPermission.IpRanges`: a CIDR plus its description,
as read from / sent to EC2 (`ec2.IpRange`). -/
structure IpRange where
  cidrIp : String
  description : String
  deriving DecidableEq, Repr

/-- An ingress permission of a security group (`ec2.IpPermission`):
protocol, port range and the attached CIDR ranges. -/
structure IpPermission where
  ipProtocol : String
  fromPort : Int
  toPort : Int
  ipRanges : List IpRange
  deriving DecidableEq, Repr

/-- A security group as returned by `DescribeSecurityGroups`
(`ec2.SecurityGroup`, ingress side only — the code never touches egress). -/
structure SecurityGroup where
  ipPermissions : List IpPermission
  deriving DecidableEq, Repr

/-- A mutating EC2 call issued by the reconciler, with its full payload:
`RevokeSecurityGroupIngress` or `AuthorizeSecurityGroupIngress` on a
group id, carrying one `IpPermission`. -/
inductive Call where
  | revoke (groupid : String) (perm : IpPermission)
  | authorize (groupid : String) (perm : IpPermission)
  deriving DecidableEq, Repr

/-- A Go `error` return value (`nil` / non-`nil`) as an `Except`. -/
def goResult : Option String → Except String Unit
  | none => .ok ()
  | some e => .error e

/-- The innermost loop of `processSG`'s counting pass: `for _, ipr :=
range ipp.IpRanges { if desc == *ipr.Description { count++ } }`. -/
def countRanges (desc : String) : List IpRange → Nat
  | [] => 0
  | r :: rs => (if desc = r.description then 1 else 0) + countRanges desc rs

/-- The middle loop of the counting pass, over `sg.IpPermissions`.  Note
that the Go code inspects only the description: the permission's
protocol and ports play no part in the count. -/
def countPerms (desc : String) : List IpPermission → Nat
  | [] => 0
  | p :: ps => countRanges desc p.ipRanges + countPerms desc ps

/-- The outer loop of the counting pass, over
`current.SecurityGroups`: the value of `count` in `processSG`. -/
def countSGs (desc : String) : List SecurityGroup → Nat
  | [] => 0
  | sg :: sgs => countPerms desc sg.ipPermissions + countSGs desc sgs

/-- The innermost loop of `processSG`'s second pass: the first
`IpRange` whose description equals `desc` (the pass returns out of
`processSG` at the first hit). -/
def findRanges (desc : String) : List IpRange → Option IpRange
  | [] => none
  | r :: rs => if desc = r.description then some r else findRanges desc rs

/-- The middle loop of the second pass, over `sg.IpPermissions`. -/
def findPerms (desc : String) : List IpPermission → Option IpRange
  | [] => none
  | p :: ps =>
    match findRanges desc p.ipRanges with
    | some r => some r
    | none => findPerms desc ps

/-- The outer loop of the second pass, over `current.SecurityGroups`. -/
def findSGs (desc : String) : List SecurityGroup → Option IpRange
  | [] => none
  | sg :: sgs =>
    match findPerms desc sg.ipPermissions with
    | some r => some r
    | none => findSGs desc sgs

/-- `whitelistSelfCommand.myIPDel`: revokes the found range's CIDR
(`ipr.CidrIp`) under the given description, protocol `tcp`, and
`port` as both `FromPort` and `ToPort`.  `revokeErr` injects the
outcome of the `RevokeSecurityGroupIngress` call, which `myIPDel`
returns unchanged. -/
def myIPDel (groupid desc : String) (ipr : IpRange) (port : Int)
    (revokeErr : Option String) : Except String Unit × List Call :=
  (goResult revokeErr,
   [Call.revoke groupid
     { ipProtocol := "tcp", fromPort := port, toPort := port,
       ipRanges := [{ cidrIp := ipr.cidrIp, description := desc }] }])

/-- `whitelistSelfCommand.myIPAdd`: authorizes the command's current
IP `i.IP` under the given description, protocol `tcp`, and `port` as
both `FromPort` and `ToPort`.  `authorizeErr` injects the outcome of
the `AuthorizeSecurityGroupIngress` call, which `myIPAdd` returns
unchanged. -/
def myIPAdd (ip groupid desc : String) (port : Int)
    (authorizeErr : Option String) : Except String Unit × List Call :=
  (goResult authorizeErr,
   [Call.authorize groupid
     { ipProtocol := "tcp", fromPort := port, toPort := port,
       ipRanges := [{ cidrIp := ip, description := desc }] }])

/-- `whitelistSelfCommand.processSG`.  `ip` is the command's current IP
(`i.IP`); `describe` is the result of the `DescribeSecurityGroups` call
(`.error` when that call failed); `revokeErr`/`authorizeErr` inject the
outcomes of the at-most-one revoke and at-most-one authorize calls.
Returns the Go return value together with the ordered trace of
mutating calls issued:

1. count the ranges whose description equals `desc` (ports ignored);
2. `count == 0`: add the current IP (`myIPAdd`);
3. `count > 1`: abort with the ambiguity error, touching nothing;
4. otherwise scan for the first matching range: same CIDR is a no-op,
   a different CIDR is revoked (`myIPDel`) and, only when the revoke
   succeeded, re-added (`myIPAdd`). -/
def processSG (ip groupid desc : String) (port : Int)
    (describe : Except String (List SecurityGroup))
    (revokeErr authorizeErr : Option String) : Except String Unit × List Call :=
  match describe with
  | .error e => (.error e, [])
  | .ok current =>
    let count := countSGs desc current
    if count = 0 then
      myIPAdd ip groupid desc port authorizeErr
    else if 1 < count then
      (.error ("there are " ++ toString count ++
        " rules which have the description '" ++ desc ++ "' - aborting"), [])
    else
      match findSGs desc current with
      | none => (.ok (), [])
      | some ipr =>
        if ipr.cidrIp = ip then
          (.ok (), [])
        else
          match myIPDel groupid desc ipr port revokeErr with
          | (.error e, dcalls) => (.error ("error removing entry " ++ e), dcalls)
          | (.ok _, dcalls) =>
            let (ares, acalls) := myIPAdd ip groupid desc port authorizeErr
            (ares, dcalls ++ acalls)

/-- Modelled from the spec's words ("count rules whose description
equals `label` exactly (scoped to `port`/TCP)"), for comparison with
the code's `countSGs`: counts only ranges sitting in a permission whose
protocol is `tcp` and whose port range is exactly the given port. -/
def countScopedPerms (desc : String) (port : Int) : List IpPermission → Nat
  | [] => 0
  | p :: ps =>
    (if p.ipProtocol = "tcp" ∧ p.fromPort = port ∧ p.toPort = port
     then countRanges desc p.ipRanges else 0) + countScopedPerms desc port ps

/-- The spec-words scoped count over a `DescribeSecurityGroups` result. -/
def countScoped (desc : String) (port : Int) : List SecurityGroup → Nat
  | [] => 0
  | sg :: sgs => countScopedPerms desc port sg.ipPermissions + countScoped desc port sgs

/-- One record of the whitelist-self configuration file (`ToChange` in
`cmd_stacks.go`): security-group id, rule name/description, optional
role ARN, port. -/
structure ToChange where
  sg : String
  name : String
  role : String
  port : Int
  deriving DecidableEq, Repr

/-- `whitelistSelfCommand.handleSecurityGroup`, with the live AWS
reconciliation (`processSG` against the session, under the record's
optional role) abstracted as `recon`: default the port to 443 when it
is 0, skip (successfully) a record whose `Name` is empty, otherwise
reconcile.  Returns the Go error value. -/
def handleSecurityGroup (recon : ToChange → Option String)
    (entry : ToChange) : Option String :=
  let entry := if entry.port = 0 then { entry with port := 443 } else entry
  if entry.name = "" then none
  else recon entry

/-- `whitelistSelfCommand.processRules` over the records parsed from
one configuration file (the file read and the JSON parse are taken as
already done; `expand` is `os.ExpandEnv`).  Returns the Go return value
and the trace of records handed to `handleSecurityGroup`: on a failing
record the function returns the wrapped error at once, so later records
of the same file are not attempted. -/
def processRules (expand : String → String) (recon : ToChange → Option String) :
    List ToChange → Option String × List ToChange
  | [] => (none, [])
  | e :: rest =>
    let e2 := { e with name := expand e.name }
    match handleSecurityGroup recon e2 with
    | some err => (some ("error updating " ++ err), [e2])
    | none =>
      let (r, t) := processRules expand recon rest
      (r, e2 :: t)

/-- `whitelistSelfCommand.Execute`, with each command-line argument
already parsed to its record list: exits 1 when no file is given or the
public-IP lookup failed; otherwise processes every file in order — a
file's error is printed and the next file is still processed — and
returns 0 unconditionally.  The second component is the per-file result
of `processRules`. -/
def Execute (expand : String → String) (recon : ToChange → Option String)
    (getIPRes : Except String String) (files : List (List ToChange)) :
    Int × List (Option String × List ToChange) :=
  if files.length < 1 then (1, [])
  else
    match getIPRes with
    | .error _ => (1, [])
    | .ok _ => (0, files.map (processRules expand recon))

/-- A Go string, as its character sequence; the harness's proofs work
on this representation. -/
abbrev Str := List Char

/-- `strings.Split(s, ":")`: split on every colon, keeping empty
fields (`Split` never returns an empty list). -/
def splitOnColon : Str → List Str
  | [] => [[]]
  | c :: rest =>
    if c = ':' then [] :: splitOnColon rest
    else
      match splitOnColon rest with
      | [] => [[c]]
      | r :: rs => (c :: r) :: rs

/-- Modelled from the spec ("Strip leading/trailing whitespace"):
`strings.TrimSpace`.  The source line `role = strings.TrimSpace(input)`
in `utils.go` names a variable `input` that exists nowhere in the
package — Go refuses to compile it, and the comment directly above
("Get the line, and trim leading/trailing spaces") shows the scanned
line itself was meant.  This definition is the intended trim, kept for
comparison with the untrimmed behaviour the written code has. -/
def trimSpace (s : Str) : Str :=
  ((s.dropWhile Char.isWhitespace).reverse.dropWhile Char.isWhitespace).reverse

/-- Whether the role-file loop of `utils.HandleRoles` skips a line: the
comment check (`strings.HasPrefix(role, "#")`) or the well-formedness
check (neither `arn:` nor `ARN:` is a prefix).  An empty line has
neither prefix and is skipped by the second check. -/
def lineSkipped (role : Str) : Bool :=
  "#".toList.isPrefixOf role ||
    (!"arn:".toList.isPrefixOf role && !"ARN:".toList.isPrefixOf role)

/-- The role-file loop of `utils.HandleRoles` (the `roleFile != ""`
path, after the file was opened; the scanned lines are given as a
list).  `cb` abstracts the callback invocation against the EC2 client
of the assumed role: it receives the account id the loop extracts
(`data[4]` of the colon split) and returns the callback's Go error.
The loop keeps the line as scanned: the source's
`role = strings.TrimSpace(input)` references an undefined variable
(see `trimSpace`), so no trim of the scanned line takes place.
Returns `none` where the Go code would panic (`data[4]` with fewer
than five colon-separated fields on a line that passed both filters);
otherwise the invoked accounts in order, and the accumulated error
strings (`"error invoking callback: "` + the callback's error), in
invocation order. -/
def handleRolesLines (cb : Str → Option String) : List Str → Option (List Str × List String)
  | [] => some ([], [])
  | line :: rest =>
    let role := line
    if "#".toList.isPrefixOf role then
      handleRolesLines cb rest
    else if !"arn:".toList.isPrefixOf role && !"ARN:".toList.isPrefixOf role then
      handleRolesLines cb rest
    else
      match (splitOnColon role).get? 4 with
      | none => none
      | some acct =>
        match handleRolesLines cb rest with
        | none => none
        | some (tr, errs) =>
          match cb acct with
          | none => some (acct :: tr, errs)
          | some e => some (acct :: tr, ("error invoking callback: " ++ e) :: errs)

/-- The classification pass alone: the accounts of the lines the loop
processes, in file order (`none` where the loop would panic). -/
def processedAccounts : List Str → Option (List Str)
  | [] => some []
  | line :: rest =>
    if lineSkipped line then processedAccounts rest
    else
      match (splitOnColon line).get? 4 with
      | none => none
      | some a => (processedAccounts rest).map (fun tr => a :: tr)

/-- All `IpRange`s of a permission list, in the iteration order of the
Go loops (used only to state properties of the loops above). -/
def allRangesPerms : List IpPermission → List IpRange
  | [] => []
  | p :: ps => p.ipRanges ++ allRangesPerms ps

/-- All `IpRange`s of a `DescribeSecurityGroups` result, in the
iteration order of the Go loops. -/
def allRangesSGs : List SecurityGroup → List IpRange
  | [] => []
  | sg :: sgs => allRangesPerms sg.ipPermissions ++ allRangesSGs sgs

theorem findRanges_eq_none {desc : String} {rs : List IpRange}
    (h : countRanges desc rs = 0) : findRanges desc rs = none := by
  induction rs with
  | nil => rfl
  | cons r rs ih =>
    by_cases hd : desc = r.description
    · simp [countRanges, hd] at h
    · simp [countRanges, hd] at h
      simp [findRanges, hd, ih h]

theorem findPerms_eq_none {desc : String} {ps : List IpPermission}
    (h : countPerms desc ps = 0) : findPerms desc ps = none := by
  induction ps with
  | nil => rfl
  | cons p ps ih =>
    simp only [countPerms, Nat.add_eq_zero] at h
    simp [findPerms, findRanges_eq_none h.1, ih h.2]

theorem findSGs_eq_none {desc : String} {sgs : List SecurityGroup}
    (h : countSGs desc sgs = 0) : findSGs desc sgs = none := by
  induction sgs with
  | nil => rfl
  | cons sg sgs ih =>
    simp only [countSGs, Nat.add_eq_zero] at h
    simp [findSGs, findPerms_eq_none h.1, ih h.2]

theorem findRanges_some {desc : String} {rs : List IpRange} {r : IpRange}
    (h : findRanges desc rs = some r) : r ∈ rs ∧ desc = r.description := by
  induction rs with
  | nil => simp [findRanges] at h
  | cons x rs ih =>
    by_cases hd : desc = x.description
    · simp [findRanges, hd] at h
      subst h
      exact ⟨List.mem_cons_self _ _, hd⟩
    · simp [findRanges, hd] at h
      rcases ih h with ⟨hm, hd2⟩
      exact ⟨List.mem_cons_of_mem _ hm, hd2⟩

theorem findPerms_some {desc : String} {ps : List IpPermission} {r : IpRange}
    (h : findPerms desc ps = some r) :
    r ∈ allRangesPerms ps ∧ desc = r.description := by
  induction ps with
  | nil => simp [findPerms] at h
  | cons p ps ih =>
    simp only [findPerms] at h
    cases hf : findRanges desc p.ipRanges with
    | some x =>
      rw [hf] at h
      cases h
      rcases findRanges_some hf with ⟨hm, hd⟩
      exact ⟨by simp [allRangesPerms, hm], hd⟩
    | none =>
      rw [hf] at h
      rcases ih h with ⟨hm, hd⟩
      exact ⟨by simp [allRangesPerms, hm], hd⟩

theorem findSGs_some {desc : String} {sgs : List SecurityGroup} {r : IpRange}
    (h : findSGs desc sgs = some r) :
    r ∈ allRangesSGs sgs ∧ desc = r.description := by
  induction sgs with
  | nil => simp [findSGs] at h
  | cons sg sgs ih =>
    simp only [findSGs] at h
    cases hf : findPerms desc sg.ipPermissions with
    | some x =>
      rw [hf] at h
      cases h
      rcases findPerms_some hf with ⟨hm, hd⟩
      exact ⟨by simp [allRangesSGs, hm], hd⟩
    | none =>
      rw [hf] at h
      rcases ih h with ⟨hm, hd⟩
      exact ⟨by simp [allRangesSGs, hm], hd⟩

theorem countRanges_of_find_none {desc : String} {rs : List IpRange}
    (h : findRanges desc rs = none) : countRanges desc rs = 0 := by
  induction rs with
  | nil => rfl
  | cons r rs ih =>
    by_cases hd : desc = r.description
    · simp [findRanges, hd] at h
    · simp only [findRanges, if_neg hd] at h
      simp [countRanges, hd, ih h]

theorem countPerms_of_find_none {desc : String} {ps : List IpPermission}
    (h : findPerms desc ps = none) : countPerms desc ps = 0 := by
  induction ps with
  | nil => rfl
  | cons p ps ih =>
    simp only [findPerms] at h
    cases hr : findRanges desc p.ipRanges with
    | some x => rw [hr] at h; cases h
    | none =>
      rw [hr] at h
      simp [countPerms, countRanges_of_find_none hr, ih h]

theorem countSGs_of_find_none {desc : String} {sgs : List SecurityGroup}
    (h : findSGs desc sgs = none) : countSGs desc sgs = 0 := by
  induction sgs with
  | nil => rfl
  | cons sg sgs ih =>
    simp only [findSGs] at h
    cases hp : findPerms desc sg.ipPermissions with
    | some x => rw [hp] at h; cases h
    | none =>
      rw [hp] at h
      simp [countSGs, countPerms_of_find_none hp, ih h]

theorem findSGs_isSome {desc : String} {sgs : List SecurityGroup}
    (h : 0 < countSGs desc sgs) : (findSGs desc sgs).isSome := by
  cases hf : findSGs desc sgs with
  | some r => rfl
  | none => exact absurd (countSGs_of_find_none hf) (by omega)

theorem countPerms_append (desc : String) (ps qs : List IpPermission) :
    countPerms desc (ps ++ qs) = countPerms desc ps + countPerms desc qs := by
  induction ps with
  | nil => simp [countPerms]
  | cons p ps ih => simp [countPerms, ih]; omega

theorem findPerms_append (desc : String) (ps qs : List IpPermission) :
    findPerms desc (ps ++ qs) =
      match findPerms desc ps with
      | some r => some r
      | none => findPerms desc qs := by
  induction ps with
  | nil => simp [findPerms]
  | cons p ps ih =>
    simp only [List.cons_append, findPerms]
    cases findRanges desc p.ipRanges with
    | some r => rfl
    | none => simp [ih]

/-- C1 — Reconciler idempotence (no-op case): when exactly one ingress
range carries the label and every labelled range already holds the
desired CIDR, `processSG` issues no mutating call and succeeds; and
after a successful first reconciliation from a label-free state (which
adds the permission `myIPAdd` sends), a second run on the resulting
state issues no mutating call. -/
theorem C1_idempotent_noop
    (ip groupid desc : String) (port : Int) (st : List SecurityGroup)
    (revokeErr authorizeErr : Option String)
    (hc : countSGs desc st = 1)
    (hip : ∀ r ∈ allRangesSGs st, desc = r.description → r.cidrIp = ip) :
    processSG ip groupid desc port (.ok st) revokeErr authorizeErr = (.ok (), []) ∧
    ∀ perms : List IpPermission, countPerms desc perms = 0 →
      processSG ip groupid desc port (.ok [{ ipPermissions := perms }]) none none =
        (.ok (), [Call.authorize groupid
          { ipProtocol := "tcp", fromPort := port, toPort := port,
            ipRanges := [{ cidrIp := ip, description := desc }] }]) ∧
      processSG ip groupid desc port
        (.ok [{ ipPermissions := perms ++
          [{ ipProtocol := "tcp", fromPort := port, toPort := port,
             ipRanges := [{ cidrIp := ip, description := desc }] }] }])
        revokeErr authorizeErr = (.ok (), []) := by
  constructor
  · have hs : (findSGs desc st).isSome := findSGs_isSome (by omega)
    cases hf : findSGs desc st with
    | none => rw [hf] at hs; cases hs
    | some r =>
      rcases findSGs_some hf with ⟨hm, hd⟩
      have hcid : r.cidrIp = ip := hip r hm hd
      simp [processSG, hc, hf, hcid]
  · intro perms hz
    have hc0 : countSGs desc [SecurityGroup.mk perms] = 0 := by
      simp [countSGs, hz]
    constructor
    · simp [processSG, hc0, myIPAdd, goResult]
    · have hstep : countSGs desc [SecurityGroup.mk (perms ++
          [{ ipProtocol := "tcp", fromPort := port, toPort := port,
             ipRanges := [{ cidrIp := ip, description := desc }] }])] = 1 := by
        simp [countSGs, countPerms_append, hz, countPerms, countRanges]
      have hfind : findSGs desc [SecurityGroup.mk (perms ++
          [{ ipProtocol := "tcp", fromPort := port, toPort := port,
             ipRanges := [{ cidrIp := ip, description := desc }] }])] =
          some { cidrIp := ip, description := desc } := by
        simp only [findSGs, findPerms_append, findPerms_eq_none hz]
        simp [findPerms, findRanges]
      simp [processSG, hstep, hfind]

/-- Witness for C1: one matching rule already holding the desired CIDR,
and the add-then-rerun composition started from an empty permission
list. -/
theorem C1_idempotent_noop_witness :
    processSG "1.2.3.4/32" "sg-1" "home-ssh" 22
      (.ok [{ ipPermissions := [
        { ipProtocol := "tcp", fromPort := 22, toPort := 22,
          ipRanges := [{ cidrIp := "1.2.3.4/32", description := "home-ssh" }] }] }])
      none none = (.ok (), []) ∧
    processSG "1.2.3.4/32" "sg-1" "home-ssh" 22
      (.ok [{ ipPermissions := ([] ++
        [{ ipProtocol := "tcp", fromPort := 22, toPort := 22,
           ipRanges := [{ cidrIp := "1.2.3.4/32", description := "home-ssh" }] }]) }])
      none none = (.ok (), []) := by
  have h := C1_idempotent_noop "1.2.3.4/32" "sg-1" "home-ssh" 22
      [{ ipPermissions := [
        { ipProtocol := "tcp", fromPort := 22, toPort := 22,
          ipRanges := [{ cidrIp := "1.2.3.4/32", description := "home-ssh" }] }] }]
      none none (by decide) (by decide)
  exact ⟨h.1, (h.2 [] (by decide)).2⟩

/-- C3 — Replace correctness: with exactly one labelled range whose CIDR
differs from the desired IP, `processSG` revokes the rule identified by
its current CIDR and the label strictly before authorizing the new CIDR;
and when the revoke fails the authorize is never issued and the wrapped
error is returned. -/
theorem C3_replace_delete_before_add
    (ip groupid desc : String) (port : Int) (st : List SecurityGroup)
    (authorizeErr : Option String) (ipr : IpRange) (e : String)
    (hc : countSGs desc st = 1)
    (hf : findSGs desc st = some ipr)
    (hne : ipr.cidrIp ≠ ip) :
    processSG ip groupid desc port (.ok st) none authorizeErr =
      (goResult authorizeErr,
       [Call.revoke groupid
          { ipProtocol := "tcp", fromPort := port, toPort := port,
            ipRanges := [{ cidrIp := ipr.cidrIp, description := desc }] },
        Call.authorize groupid
          { ipProtocol := "tcp", fromPort := port, toPort := port,
            ipRanges := [{ cidrIp := ip, description := desc }] }]) ∧
    processSG ip groupid desc port (.ok st) (some e) authorizeErr =
      (.error ("error removing entry " ++ e),
       [Call.revoke groupid
          { ipProtocol := "tcp", fromPort := port, toPort := port,
            ipRanges := [{ cidrIp := ipr.cidrIp, description := desc }] }]) := by
  constructor
  · simp [processSG, hc, hf, hne, myIPDel, myIPAdd, goResult]
  · simp [processSG, hc, hf, hne, myIPDel, goResult]

/-- Witness for C3: one stale rule (5.6.7.8/32) under the label, desired
1.2.3.4/32; revoke-success and revoke-failure paths. -/
theorem C3_replace_delete_before_add_witness :
    processSG "1.2.3.4/32" "sg-1" "home-ssh" 22
      (.ok [{ ipPermissions := [
        { ipProtocol := "tcp", fromPort := 22, toPort := 22,
          ipRanges := [{ cidrIp := "5.6.7.8/32", description := "home-ssh" }] }] }])
      none none =
      (goResult none,
       [Call.revoke "sg-1"
          { ipProtocol := "tcp", fromPort := 22, toPort := 22,
            ipRanges := [{ cidrIp := "5.6.7.8/32", description := "home-ssh" }] },
        Call.authorize "sg-1"
          { ipProtocol := "tcp", fromPort := 22, toPort := 22,
            ipRanges := [{ cidrIp := "1.2.3.4/32", description := "home-ssh" }] }]) ∧
    processSG "1.2.3.4/32" "sg-1" "home-ssh" 22
      (.ok [{ ipPermissions := [
        { ipProtocol := "tcp", fromPort := 22, toPort := 22,
          ipRanges := [{ cidrIp := "5.6.7.8/32", description := "home-ssh" }] }] }])
      (some "revoke denied") none =
      (.error ("error removing entry " ++ "revoke denied"),
       [Call.revoke "sg-1"
          { ipProtocol := "tcp", fromPort := 22, toPort := 22,
            ipRanges := [{ cidrIp := "5.6.7.8/32", description := "home-ssh" }] }]) := by
  have h := C3_replace_delete_before_add "1.2.3.4/32" "sg-1" "home-ssh" 22
      [{ ipPermissions := [
        { ipProtocol := "tcp", fromPort := 22, toPort := 22,
          ipRanges := [{ cidrIp := "5.6.7.8/32", description := "home-ssh" }] }] }]
      none { cidrIp := "5.6.7.8/32", description := "home-ssh" } "revoke denied"
      (by decide) (by decide) (by decide)
  exact h

/-- C2 — Ambiguity detection: with two or more ingress ranges carrying
the given description, `processSG` returns the error naming the count
and the label and issues no revoke and no authorize call. -/
theorem C2_ambiguity_aborts_untouched
    (ip groupid desc : String) (port : Int) (st : List SecurityGroup)
    (revokeErr authorizeErr : Option String)
    (h : 2 ≤ countSGs desc st) :
    processSG ip groupid desc port (.ok st) revokeErr authorizeErr =
      (.error ("there are " ++ toString (countSGs desc st) ++
        " rules which have the description '" ++ desc ++ "' - aborting"), []) := by
  have h0 : ¬ countSGs desc st = 0 := by omega
  have h1 : 1 < countSGs desc st := by omega
  simp [processSG, h0, h1]

/-- Witness for C2 at a concrete two-rule state. -/
theorem C2_ambiguity_aborts_untouched_witness :
    processSG "1.2.3.4/32" "sg-1" "home-ssh" 22
      (.ok [{ ipPermissions := [
        { ipProtocol := "tcp", fromPort := 22, toPort := 22,
          ipRanges := [{ cidrIp := "5.6.7.8/32", description := "home-ssh" },
                       { cidrIp := "9.9.9.9/32", description := "home-ssh" }] }] }])
      none none =
      (.error ("there are " ++ toString (2 : Nat) ++
        " rules which have the description '" ++ "home-ssh" ++ "' - aborting"), []) := by
  have := C2_ambiguity_aborts_untouched "1.2.3.4/32" "sg-1" "home-ssh" 22
      [{ ipPermissions := [
        { ipProtocol := "tcp", fromPort := 22, toPort := 22,
          ipRanges := [{ cidrIp := "5.6.7.8/32", description := "home-ssh" },
                       { cidrIp := "9.9.9.9/32", description := "home-ssh" }] }] }]
      none none (by decide)
  simpa using this

/-- C5 — Add on zero matches: with no ingress range carrying the given
description, `processSG` issues exactly one authorize call with the
desired CIDR, the port as both bounds, protocol `tcp`, and the label
as description — and no revoke call. -/
theorem C5_add_on_zero_matches
    (ip groupid desc : String) (port : Int) (st : List SecurityGroup)
    (revokeErr authorizeErr : Option String)
    (h : countSGs desc st = 0) :
    processSG ip groupid desc port (.ok st) revokeErr authorizeErr =
      (goResult authorizeErr,
       [Call.authorize groupid
         { ipProtocol := "tcp", fromPort := port, toPort := port,
           ipRanges := [{ cidrIp := ip, description := desc }] }]) := by
  simp [processSG, myIPAdd, h]

/-- Witness for C5: the spec's scenario (sg-1, home-ssh, 22, 1.2.3.4/32)
on a group with no rule labelled home-ssh. -/
theorem C5_add_on_zero_matches_witness :
    processSG "1.2.3.4/32" "sg-1" "home-ssh" 22
      (.ok [{ ipPermissions := [
        { ipProtocol := "tcp", fromPort := 80, toPort := 80,
          ipRanges := [{ cidrIp := "5.6.7.8/32", description := "web" }] }] }])
      none none =
      (goResult none,
       [Call.authorize "sg-1"
         { ipProtocol := "tcp", fromPort := 22, toPort := 22,
           ipRanges := [{ cidrIp := "1.2.3.4/32", description := "home-ssh" }] }]) :=
  C5_add_on_zero_matches "1.2.3.4/32" "sg-1" "home-ssh" 22
    [{ ipPermissions := [
      { ipProtocol := "tcp", fromPort := 80, toPort := 80,
        ipRanges := [{ cidrIp := "5.6.7.8/32", description := "web" }] }] }]
    none none (by decide)

/-- Counterexample to C4: a single rule labelled `home-ssh` attached to
TCP port 80, reconciled for port 22.  The spec-words scoped count is 0,
so the claim predicts the Add branch (one authorize, no revoke); the
code's count is 1 and `processSG` takes the replace branch, its first
mutating call a revoke. -/
theorem C4_counterexample_count_not_port_scoped :
    countScoped "home-ssh" 22
      [{ ipPermissions := [
        { ipProtocol := "tcp", fromPort := 80, toPort := 80,
          ipRanges := [{ cidrIp := "5.6.7.8/32", description := "home-ssh" }] }] }] = 0 ∧
    countSGs "home-ssh"
      [{ ipPermissions := [
        { ipProtocol := "tcp", fromPort := 80, toPort := 80,
          ipRanges := [{ cidrIp := "5.6.7.8/32", description := "home-ssh" }] }] }] = 1 ∧
    (processSG "1.2.3.4/32" "sg-1" "home-ssh" 22
      (.ok [{ ipPermissions := [
        { ipProtocol := "tcp", fromPort := 80, toPort := 80,
          ipRanges := [{ cidrIp := "5.6.7.8/32", description := "home-ssh" }] }] }])
      none none).2 =
      [Call.revoke "sg-1"
        { ipProtocol := "tcp", fromPort := 22, toPort := 22,
          ipRanges := [{ cidrIp := "5.6.7.8/32", description := "home-ssh" }] },
       Call.authorize "sg-1"
        { ipProtocol := "tcp", fromPort := 22, toPort := 22,
          ipRanges := [{ cidrIp := "1.2.3.4/32", description := "home-ssh" }] }] := by
  refine ⟨by decide, by decide, ?_⟩
  decide

/-- C4 amended — the branch-selecting count of `processSG` matches on
the description alone: rewriting every permission's protocol and port
bounds arbitrarily never changes the count. -/
theorem C4_amended_count_ignores_port_and_protocol
    (desc pr : String) (f t : Int) (sgs : List SecurityGroup) :
    countSGs desc (sgs.map (fun sg =>
      { ipPermissions := sg.ipPermissions.map
          (fun p => { p with ipProtocol := pr, fromPort := f, toPort := t }) })) =
      countSGs desc sgs := by
  have hp : ∀ ps : List IpPermission,
      countPerms desc (ps.map
        (fun p => { p with ipProtocol := pr, fromPort := f, toPort := t })) =
        countPerms desc ps := by
    intro ps
    induction ps with
    | nil => rfl
    | cons p ps ih => simp [countPerms, ih]
  induction sgs with
  | nil => rfl
  | cons sg sgs ih => simp [countSGs, hp, ih]

theorem processRules_append_ok (expand : String → String)
    (recon : ToChange → Option String) (pre tail : List ToChange)
    (hpre : ∀ x ∈ pre, handleSecurityGroup recon { x with name := expand x.name } = none) :
    processRules expand recon (pre ++ tail) =
      ((processRules expand recon tail).1,
       pre.map (fun x => { x with name := expand x.name }) ++
         (processRules expand recon tail).2) := by
  induction pre with
  | nil => simp
  | cons x xs ih =>
    have hx := hpre x (List.mem_cons_self x xs)
    simp only [List.cons_append, processRules, hx, List.append_eq]
    rw [ih (fun y hy => hpre y (List.mem_cons_of_mem x hy))]
    simp

/-- Counterexample to C8: a configuration file of two records whose
first record fails reconciliation.  `processRules` attempts only the
failing record — the second is never handed to `handleSecurityGroup` —
and `Execute` still returns exit code 0. -/
theorem C8_counterexample_record_failure_stops_file :
    (processRules id (fun e => if e.sg = "sg-bad" then some "boom" else none)
       [{ sg := "sg-bad", name := "one", role := "", port := 22 },
        { sg := "sg-2", name := "two", role := "", port := 22 }]).2 =
      [{ sg := "sg-bad", name := "one", role := "", port := 22 }] ∧
    (processRules id (fun e => if e.sg = "sg-bad" then some "boom" else none)
       [{ sg := "sg-bad", name := "one", role := "", port := 22 },
        { sg := "sg-2", name := "two", role := "", port := 22 }]).2 ≠
      [{ sg := "sg-bad", name := "one", role := "", port := 22 },
       { sg := "sg-2", name := "two", role := "", port := 22 }] ∧
    (Execute id (fun e => if e.sg = "sg-bad" then some "boom" else none)
       (.ok "1.2.3.4/32")
       [[{ sg := "sg-bad", name := "one", role := "", port := 22 },
         { sg := "sg-2", name := "two", role := "", port := 22 }]]).1 = 0 := by
  refine ⟨by decide, by decide, by decide⟩

/-- C8 amended — per-record failures are not recoverable within a file:
the first failing record makes `processRules` return the wrapped error
at once (earlier records were attempted, later records of the same file
are not), while `Execute` still processes every remaining configuration
file and returns exit code 0 regardless of failures. -/
theorem C8_amended_driver_continuation
    (expand : String → String) (recon : ToChange → Option String)
    (pre : List ToChange) (e : ToChange) (rest : List ToChange)
    (files1 files2 : List (List ToChange)) (ip err : String)
    (hpre : ∀ x ∈ pre, handleSecurityGroup recon { x with name := expand x.name } = none)
    (herr : handleSecurityGroup recon { e with name := expand e.name } = some err) :
    processRules expand recon (pre ++ e :: rest) =
      (some ("error updating " ++ err),
       pre.map (fun x => { x with name := expand x.name }) ++
         [{ e with name := expand e.name }]) ∧
    (Execute expand recon (.ok ip) (files1 ++ (pre ++ e :: rest) :: files2)).1 = 0 ∧
    (Execute expand recon (.ok ip) (files1 ++ (pre ++ e :: rest) :: files2)).2 =
      (files1 ++ (pre ++ e :: rest) :: files2).map (processRules expand recon) := by
  have hlen : ¬ (files1 ++ (pre ++ e :: rest) :: files2).length < 1 := by
    simp
  refine ⟨?_, ?_, ?_⟩
  · rw [processRules_append_ok expand recon pre (e :: rest) hpre]
    simp [processRules, herr]
  · simp [Execute, hlen]
  · simp [Execute, hlen]

/-- Witness for C8's amended claim: a succeeding record, a failing one,
and a trailing record that is never attempted. -/
theorem C8_amended_driver_continuation_witness :
    processRules id (fun e => if e.sg = "sg-bad" then some "boom" else none)
      [{ sg := "sg-ok", name := "zero", role := "", port := 443 },
       { sg := "sg-bad", name := "one", role := "", port := 22 },
       { sg := "sg-2", name := "two", role := "", port := 22 }] =
    (some ("error updating " ++ "boom"),
     [{ sg := "sg-ok", name := "zero", role := "", port := 443 },
      { sg := "sg-bad", name := "one", role := "", port := 22 }]) := by
  have h := (C8_amended_driver_continuation id
      (fun e => if e.sg = "sg-bad" then some "boom" else none)
      [{ sg := "sg-ok", name := "zero", role := "", port := 443 }]
      { sg := "sg-bad", name := "one", role := "", port := 22 }
      [{ sg := "sg-2", name := "two", role := "", port := 22 }]
      [] [] "1.2.3.4/32" "boom" (by decide) (by decide)).1
  simpa using h

theorem handleRolesLines_skip (cb : Str → Option String) {l : Str}
    (hs : lineSkipped l = true) (pre post : List Str) :
    handleRolesLines cb (pre ++ l :: post) = handleRolesLines cb (pre ++ post) := by
  induction pre with
  | nil =>
    simp only [List.nil_append]
    unfold lineSkipped at hs
    cases h1 : "#".toList.isPrefixOf l with
    | true => simp only [handleRolesLines, h1, if_true]
    | false =>
      rw [h1, Bool.false_or] at hs
      simp only [handleRolesLines, h1, hs, Bool.false_eq_true, if_false, if_true]
  | cons p pre ih =>
    simp only [List.cons_append, handleRolesLines, List.append_eq]
    rw [ih]

theorem handleRolesLines_trace (cb : Str → Option String) (lines : List Str)
    {P : List Str} (h : processedAccounts lines = some P) :
    handleRolesLines cb lines =
      some (P, P.filterMap
        (fun a => (cb a).map (fun e => "error invoking callback: " ++ e))) := by
  induction lines generalizing P with
  | nil =>
    simp only [processedAccounts, Option.some.injEq] at h
    subst h
    rfl
  | cons line rest ih =>
    cases hsk : lineSkipped line with
    | true =>
      simp only [processedAccounts, hsk, if_true] at h
      have hstep := handleRolesLines_skip cb hsk [] rest
      simp only [List.nil_append] at hstep
      rw [hstep]
      exact ih h
    | false =>
      have hsk2 := hsk
      unfold lineSkipped at hsk2
      have h12 := Bool.or_eq_false_iff.mp hsk2
      have h1 : "#".toList.isPrefixOf line = false := h12.1
      have h2 : (!"arn:".toList.isPrefixOf line &&
          !"ARN:".toList.isPrefixOf line) = false := h12.2
      simp only [processedAccounts, hsk, Bool.false_eq_true, if_false] at h
      cases hget : (splitOnColon line).get? 4 with
      | none => rw [hget] at h; cases h
      | some a =>
        rw [hget] at h
        rcases Option.map_eq_some'.mp h with ⟨tr, htr, hP⟩
        subst hP
        simp only [handleRolesLines, h1, h2, hget, ih htr, Bool.false_eq_true,
          if_false]
        cases hcb : cb a with
        | none => simp [List.filterMap_cons, hcb]
        | some e => simp [List.filterMap_cons, hcb]

/-- C6 — Harness continuation and error accumulation: when the loop's
processed entries are `A ++ x :: (B ++ y :: C)` and the callback fails
exactly on `x` and `y`, `HandleRoles`'s loop still invokes the callback
for every entry in file order and accumulates exactly the two wrapped
errors, the earlier position's first. -/
theorem C6_continuation_and_error_order
    (cb : Str → Option String) (lines : List Str)
    (A B C : List Str) (x y : Str) (e₁ e₂ : String)
    (hP : processedAccounts lines = some (A ++ x :: (B ++ y :: C)))
    (hA : ∀ a ∈ A, cb a = none) (hB : ∀ a ∈ B, cb a = none)
    (hC : ∀ a ∈ C, cb a = none)
    (hx : cb x = some e₁) (hy : cb y = some e₂) :
    handleRolesLines cb lines =
      some (A ++ x :: (B ++ y :: C),
        ["error invoking callback: " ++ e₁,
         "error invoking callback: " ++ e₂]) := by
  rw [handleRolesLines_trace cb lines hP]
  have hfA : A.filterMap
      (fun a => (cb a).map (fun e => "error invoking callback: " ++ e)) = [] := by
    rw [List.filterMap_eq_nil_iff]
    intro a ha
    simp [hA a ha]
  have hfB : B.filterMap
      (fun a => (cb a).map (fun e => "error invoking callback: " ++ e)) = [] := by
    rw [List.filterMap_eq_nil_iff]
    intro a ha
    simp [hB a ha]
  have hfC : C.filterMap
      (fun a => (cb a).map (fun e => "error invoking callback: " ++ e)) = [] := by
    rw [List.filterMap_eq_nil_iff]
    intro a ha
    simp [hC a ha]
  simp [List.filterMap_append, List.filterMap_cons, hfA, hfB, hfC, hx, hy]

/-- Witness for C6: a five-line role file (one comment, one blank, three
role lines) whose callback fails on the first and third extracted
accounts. -/
theorem C6_continuation_and_error_order_witness :
    handleRolesLines
      (fun a => if a = "111".toList then some "x"
                else if a = "333".toList then some "y" else none)
      ["arn:aws:iam::111:role/a".toList, "# comment".toList,
       "arn:aws:iam::222:role/b".toList, "".toList,
       "arn:aws:iam::333:role/c".toList] =
      some (["111".toList, "222".toList, "333".toList],
        ["error invoking callback: " ++ "x",
         "error invoking callback: " ++ "y"]) := by
  have h := C6_continuation_and_error_order
      (fun a => if a = "111".toList then some "x"
                else if a = "333".toList then some "y" else none)
      ["arn:aws:iam::111:role/a".toList, "# comment".toList,
       "arn:aws:iam::222:role/b".toList, "".toList,
       "arn:aws:iam::333:role/c".toList]
      [] ["222".toList] [] "111".toList "333".toList "x" "y"
      (by decide) (by decide) (by decide) (by decide) (by decide) (by decide)
  simpa using h

/-- C7 — Role-file line classification and account extraction: a line
that is a comment, empty, or lacks both role-ARN prefixes is never
passed to role assumption (the loop's result is as if the line were
absent), and a processed line's account — the first entry the callback
is invoked with — is the line's 5th colon-delimited field (index 4). -/
theorem C7_line_classification_and_account
    (cb : Str → Option String) (pre post : List Str) (l : Str) :
    (("#".toList.isPrefixOf l ∨ l = [] ∨
        ("arn:".toList.isPrefixOf l = false ∧ "ARN:".toList.isPrefixOf l = false)) →
      handleRolesLines cb (pre ++ l :: post) = handleRolesLines cb (pre ++ post)) ∧
    (∀ a tr errs, lineSkipped l = false →
      (splitOnColon l).get? 4 = some a →
      handleRolesLines cb post = some (tr, errs) →
      (handleRolesLines cb (l :: post)).map Prod.fst = some (a :: tr)) := by
  constructor
  · intro h
    have hs : lineSkipped l = true := by
      unfold lineSkipped
      rcases h with h | h | h
      · rw [h, Bool.true_or]
      · subst h; decide
      · rw [h.1, h.2, Bool.not_false, Bool.and_self, Bool.or_true]
    exact handleRolesLines_skip cb hs pre post
  · intro a tr errs hsk hget hrest
    have hsk2 := hsk
    unfold lineSkipped at hsk2
    have h12 := Bool.or_eq_false_iff.mp hsk2
    simp only [handleRolesLines, h12.1, h12.2, Bool.false_eq_true, if_false,
      hget, hrest]
    cases hcb : cb a <;> simp

/-- Witness for C7: dropping a comment line leaves the loop's result
unchanged, applied to a concrete two-line file. -/
theorem C7_line_classification_and_account_witness :
    handleRolesLines (fun _ => none)
      ["# note".toList, "arn:aws:iam::1234:role/x".toList] =
      handleRolesLines (fun _ => none) ["arn:aws:iam::1234:role/x".toList] :=
  (C7_line_classification_and_account (fun _ => none) []
      ["arn:aws:iam::1234:role/x".toList] "# note".toList).1
    (Or.inl (by decide))

/-- C9 — the claim says every scanned line is whitespace-trimmed before
the comment and prefix checks; the code's trim targets an undefined
variable (`strings.TrimSpace(input)`, a Go compile error), so the
scanned line is never trimmed: a role line with leading spaces fails
the `arn:`/`ARN:` prefix check and is silently skipped, while the same
line trimmed (the code's stated intent) is processed with its account
extracted. -/
theorem C9_trim_targets_undefined_variable :
    handleRolesLines (fun _ => none)
      ["  arn:aws:iam::111122223333:role/alpha".toList] = some ([], []) ∧
    trimSpace "  arn:aws:iam::111122223333:role/alpha".toList =
      "arn:aws:iam::111122223333:role/alpha".toList ∧
    handleRolesLines (fun _ => none)
      [trimSpace "  arn:aws:iam::111122223333:role/alpha".toList] =
      some (["111122223333".toList], []) := by
  refine ⟨by decide, by decide, by decide⟩

/-- C10 — the role-ARN prefix filter accepts exactly the two spellings
`arn:` and `ARN:`: an `ARN:`-line is processed identically to the
`arn:`-line with the same tail (same account, field index 4 of the
split), a mixed-case `Arn:`-line is silently skipped, and a concrete
`ARN:` line reaches the callback with its extracted account. -/
theorem C10_uppercase_ARN_accepted
    (cb : Str → Option String) (s : Str) (rest : List Str) :
    handleRolesLines cb (('A' :: 'R' :: 'N' :: ':' :: s) :: rest) =
      handleRolesLines cb (('a' :: 'r' :: 'n' :: ':' :: s) :: rest) ∧
    handleRolesLines cb (('A' :: 'r' :: 'n' :: ':' :: s) :: rest) =
      handleRolesLines cb rest ∧
    handleRolesLines (fun _ => none) ["ARN:aws:iam::1234:role/x".toList] =
      some (["1234".toList], []) := by
  refine ⟨?_, by rfl, by decide⟩
  have e1 : splitOnColon ('A' :: 'R' :: 'N' :: ':' :: s) =
      ['A', 'R', 'N'] :: splitOnColon s := rfl
  have e2 : splitOnColon ('a' :: 'r' :: 'n' :: ':' :: s) =
      ['a', 'r', 'n'] :: splitOnColon s := rfl
  have g1 : "#".toList.isPrefixOf ('A' :: 'R' :: 'N' :: ':' :: s) = false := by
    simp [List.isPrefixOf_cons₂]
  have g2 : "#".toList.isPrefixOf ('a' :: 'r' :: 'n' :: ':' :: s) = false := by
    simp [List.isPrefixOf_cons₂]
  have g3 : "arn:".toList.isPrefixOf ('A' :: 'R' :: 'N' :: ':' :: s) = false := by
    simp [List.isPrefixOf_cons₂]
  have g4 : "ARN:".toList.isPrefixOf ('A' :: 'R' :: 'N' :: ':' :: s) = true := by
    simp [List.isPrefixOf_cons₂]
  have g5 : "arn:".toList.isPrefixOf ('a' :: 'r' :: 'n' :: ':' :: s) = true := by
    simp [List.isPrefixOf_cons₂]
  have g6 : "ARN:".toList.isPrefixOf ('a' :: 'r' :: 'n' :: ':' :: s) = false := by
    simp [List.isPrefixOf_cons₂]
  have d1 : (['A', 'R', 'N'] :: splitOnColon s).get? 4 = (splitOnColon s).get? 3 := rfl
  have d2 : (['a', 'r', 'n'] :: splitOnColon s).get? 4 = (splitOnColon s).get? 3 := rfl
  simp only [handleRolesLines, g1, g2, g3, g4, g5, g6, e1, e2, d1, d2,
    Bool.not_true, Bool.not_false, Bool.true_and, Bool.and_false, Bool.false_and,
    Bool.and_true, Bool.false_eq_true, if_false]

end AwsUtils
